import Mathlib

/-!
Verification of the BM25 retrieval core of the guidelines-bot server.

The repository contains two variants of the module `search/bm25.js`:
the primary file (called "variant 0" below, names without a suffix) and a
second observed variant ("variant 1", names with suffix `1`).  Both export
`buildIndex` and `searchTop` over the same chunk shape.

Modelling conventions:
* JS numbers are modelled as exact rationals (`ℚ`); term/document counts as `ℕ`.
* `Math.log` is an arbitrary parameter `log : ℚ → ℚ` of the scoring
  functions: none of the ranking-shape properties below depend on which
  function it is, so every theorem quantifying over `log` is at least as
  strong as the same statement for the real logarithm.  The one analytic
  claim (non-negativity of the IDF) is treated with `Real.log` directly.
* JS objects used as term→count maps are modelled as insertion-ordered
  association lists (`TFMap`); `m[t] = (m[t]||0)+1` is `bumpAL`, `m[t]||0`
  is `tfGet`, and `for (const key in m)` iterates `m.map Prod.fst`.
* `String.prototype.toLowerCase` is modelled on the ASCII range (identity
  elsewhere); every concrete input used below is one on which the JS
  function agrees with this model.
* `Array.prototype.sort` with comparator `(a,b) => b.score - a.score` is a
  stable sort by non-increasing score; it is modelled by `List.mergeSort`
  with the boolean relation `b.score ≤ a.score`, which is the (unique)
  stable sort for the same total preorder.
-/

/-- ASCII lower-casing, as performed by `toLowerCase` on the inputs we use. -/
def jsToLower (c : Char) : Char :=
  if 'A' ≤ c && c ≤ 'Z' then Char.ofNat (c.toNat + 32) else c

/-- Character class kept by variant 0's tokenizer regex
`/[^a-z0-9一-鿿]+/gi` (applied after lower-casing): ASCII letters,
ASCII digits, CJK Unified Ideographs. -/
def isKeep (c : Char) : Bool :=
  ('a' ≤ c && c ≤ 'z') || ('0' ≤ c && c ≤ '9') ||
    (0x4E00 ≤ c.toNat && c.toNat ≤ 0x9FFF)

/-- Character class kept by variant 1's tokenizer regex
`/[^a-z0-9À-ɏ一-鿿]+/g`: additionally keeps
U+00C0–U+024F (Latin-1 Supplement / Latin Extended-A,B). -/
def isKeep1 (c : Char) : Bool :=
  ('a' ≤ c && c ≤ 'z') || ('0' ≤ c && c ≤ '9') ||
    (0xC0 ≤ c.toNat && c.toNat ≤ 0x24F) ||
    (0x4E00 ≤ c.toNat && c.toNat ≤ 0x9FFF)

/-- The character set matched by the JS regex class `\s`. -/
def isJsWhitespace (c : Char) : Bool :=
  let n := c.toNat
  (9 ≤ n && n ≤ 13) || n = 32 || n = 0xA0 || n = 0x1680 ||
    (0x2000 ≤ n && n ≤ 0x200A) || n = 0x2028 || n = 0x2029 ||
    n = 0x202F || n = 0x205F || n = 0x3000 || n = 0xFEFF

/-- Split a character list at the characters satisfying `p` (dropping them);
empty chunks are produced between adjacent separators.  Together with the
later `filter (· ≠ [])` this models `.split(/\s+/).filter(Boolean)`. -/
def splitSep (p : Char → Bool) : List Char → List (List Char)
  | [] => [[]]
  | c :: cs =>
    if p c then [] :: splitSep p cs
    else
      match splitSep p cs with
      | [] => [[c]]
      | r :: rs => (c :: r) :: rs

/-- Variant 0 tokenizer: lower-case, replace every non-kept character by a
space, split on whitespace runs, drop empty tokens. -/
def tokenize (s : String) : List String :=
  let replaced := (s.data.map jsToLower).map fun c => if isKeep c then c else ' '
  ((splitSep isJsWhitespace replaced).filter fun r => r ≠ []).map fun r => String.mk r

/-- Variant 1 tokenizer: same shape, larger kept character class. -/
def tokenize1 (s : String) : List String :=
  let replaced := (s.data.map jsToLower).map fun c => if isKeep1 c then c else ' '
  ((splitSep isJsWhitespace replaced).filter fun r => r ≠ []).map fun r => String.mk r

/-- Variant 1's query-term extraction
`(query||'').toLowerCase().split(/\s+/).filter(Boolean)`:
lower-case and split on whitespace only — no character-class filtering. -/
def wsTokens (q : String) : List String :=
  ((splitSep isJsWhitespace (q.data.map jsToLower)).filter fun r => r ≠ []).map fun r => String.mk r

/-- A JS object used as a term→count map: insertion-ordered key/value pairs. -/
abbrev TFMap := List (String × ℕ)

/-- `m[t] || 0`. -/
def tfGet (m : TFMap) (t : String) : ℕ :=
  match m with
  | [] => 0
  | (s, n) :: m => if s = t then n else tfGet m t

/-- `m[t] = (m[t] || 0) + 1`: update the existing key in place, else append. -/
def bumpAL : TFMap → String → TFMap
  | [], t => [(t, 1)]
  | (s, n) :: m, t => if s = t then (s, n + 1) :: m else (s, n) :: bumpAL m t

/-- `tokens.forEach(t => freq[t] = (freq[t]||0)+1)` starting from `{}`. -/
def freqOf (tokens : List String) : TFMap :=
  tokens.foldl bumpAL []

/-- `Array.from(new Set(l))`: first-occurrence deduplication, order kept. -/
def dedupFirst (l : List String) : List String :=
  l.foldl (fun acc t => if t ∈ acc then acc else acc ++ [t]) []

/-- An input chunk `{ id, sourceId, text }`. -/
structure Chunk where
  id : String
  sourceId : String
  text : String
deriving DecidableEq

/-- Variant 0's per-document record built by `buildIndex`. -/
structure Doc where
  id : String
  sourceId : String
  text : String
  freq : TFMap
  len : ℕ
deriving DecidableEq

/-- Variant 0's index model `{ docs, df, N, avgdl }`. -/
structure Model where
  docs : List Doc
  df : TFMap
  N : ℕ
  avgdl : ℚ
deriving DecidableEq

/-- Variant 0's search result `{ sourceId, text, score }`. -/
structure Result where
  sourceId : String
  text : String
  score : ℚ
deriving DecidableEq

/-- Variant 1's document record `{ id: i, sourceId, text }` (id is the index). -/
structure Doc1 where
  id : ℕ
  sourceId : String
  text : String
deriving DecidableEq

/-- Variant 1's index model `{ docs, df, tf, N, avgdl }`. -/
structure Model1 where
  docs : List Doc1
  df : TFMap
  tf : List TFMap
  N : ℕ
  avgdl : ℚ
deriving DecidableEq

/-- Variant 1's search result `{ id, sourceId, score, text }`. -/
structure Result1 where
  id : ℕ
  sourceId : String
  score : ℚ
  text : String
deriving DecidableEq

/-- BM25 parameter `k1 = 1.5` (identical in both variants). -/
def k1 : ℚ := 3 / 2

/-- BM25 parameter `b = 0.75` (identical in both variants). -/
def b : ℚ := 3 / 4

/-- `avgdl || 1`: substitute 1 when `avgdl` is 0. -/
def avgdlOr1 (a : ℚ) : ℚ := if a = 0 then 1 else a

/-- The argument of the logarithm in the IDF:
`(N - n_t + 0.5) / (n_t + 0.5) + 1`. -/
def idfArg (N nt : ℕ) : ℚ :=
  ((N : ℚ) - (nt : ℚ) + 1 / 2) / ((nt : ℚ) + 1 / 2) + 1

/-- The term-frequency-scaling denominator
`f + k1 * (1 - b + b * (len / (avgdl || 1)))` (identical in both variants). -/
def scoreDenom (fqi len : ℕ) (avgdl : ℚ) : ℚ :=
  (fqi : ℚ) + k1 * (1 - b + b * ((len : ℚ) / avgdlOr1 avgdl))

/-- Variant 0: the contribution of one query term to one document's score
(the loop body of `bm25Score`; the two `continue`s become 0 branches). -/
def termScore (log : ℚ → ℚ) (df : TFMap) (N : ℕ) (avgdl : ℚ) (doc : Doc)
    (t : String) : ℚ :=
  let nqi := tfGet df t
  if nqi = 0 then 0
  else
    let fqi := tfGet doc.freq t
    if fqi = 0 then 0
    else log (idfArg N nqi) * ((fqi : ℚ) * (k1 + 1) / scoreDenom fqi doc.len avgdl)

/-- Variant 0's per-term loop with its `seen` set: terms already in `seen`
are skipped, new ones are added and their contribution accumulated. -/
def scoreFold (f : String → ℚ) : List String → List String → ℚ → ℚ
  | [], _, acc => acc
  | t :: ts, seen, acc =>
    if t ∈ seen then scoreFold f ts seen acc
    else scoreFold f ts (t :: seen) (acc + f t)

/-- Variant 0's `bm25Score(doc)` over the token list of the query. -/
def bm25Score (log : ℚ → ℚ) (df : TFMap) (N : ℕ) (avgdl : ℚ) (doc : Doc)
    (qTokens : List String) : ℚ :=
  scoreFold (termScore log df N avgdl doc) qTokens [] 0

/-- Variant 0's `searchTop(model, query, k)`. -/
def searchTop (log : ℚ → ℚ) (model : Model) (query : String) (k : ℕ) :
    List Result :=
  if model.docs.isEmpty then []
  else
    let qTokens := tokenize query
    let scored := model.docs.map fun doc =>
      Result.mk doc.sourceId doc.text
        (bm25Score log model.df model.N model.avgdl doc qTokens)
    (scored.mergeSort fun a a2 => decide (a2.score ≤ a.score)).take k

/-- Variant 0's `buildIndex(chunks)`.  The document-frequency pass iterates
the keys of each document's `freq` object (`for (const term in doc.freq)`),
i.e. `doc.freq.map Prod.fst` in insertion order. -/
def buildIndex (chunks : List Chunk) : Model :=
  let docs := chunks.map fun ch =>
    let tokens := tokenize ch.text
    Doc.mk ch.id ch.sourceId ch.text (freqOf tokens) tokens.length
  let df := docs.foldl (fun m doc => (doc.freq.map Prod.fst).foldl bumpAL m) []
  let N := docs.length
  let avgdl : ℚ := if 0 < N then ((docs.map Doc.len).sum : ℚ) / (N : ℚ) else 0
  Model.mk docs df N avgdl

/-- `Object.values(tfDoc).reduce((a,b)=>a+b,0)`: variant 1's recomputed
document length (the trailing `|| 0` is the identity on a `ℕ` sum). -/
def docLen1 (m : TFMap) : ℕ := (m.map Prod.snd).sum

/-- Variant 1: the contribution of one query term to one document's score.
There is no `f_t = 0` skip; a zero `f_t` contributes `idf * 0`.  The extra
`denom || 1` guard of this variant is kept. -/
def termScore1 (log : ℚ → ℚ) (df : TFMap) (N : ℕ) (avgdl : ℚ) (tfDoc : TFMap)
    (dl : ℕ) (t : String) : ℚ :=
  let ni := tfGet df t
  if ni = 0 then 0
  else
    let fii := tfGet tfDoc t
    let denom := scoreDenom fii dl avgdl
    log (idfArg N ni) * ((fii : ℚ) * (k1 + 1) /
      (if denom = 0 then 1 else denom))

/-- Variant 1's score accumulation over the (already deduplicated) query
terms: a plain sum of the per-term contributions. -/
def score1 (log : ℚ → ℚ) (model : Model1) (tfDoc : TFMap)
    (qterms : List String) : ℚ :=
  (qterms.map (termScore1 log model.df model.N model.avgdl tfDoc (docLen1 tfDoc))).sum

/-- Variant 1's `searchTop(model, query, k)`: the loop over `i` pairs
`docs[i]` with `tf[i]` (modelled by `zip`; on models produced by
`buildIndex1` the two lists have equal length), documents with score `> 0`
are pushed in corpus order, then sorted and truncated. -/
def searchTop1 (log : ℚ → ℚ) (model : Model1) (query : String) (k : ℕ) :
    List Result1 :=
  let qterms := dedupFirst (wsTokens query)
  let results := ((model.docs.zip model.tf).enum).filterMap fun p =>
    let s := score1 log model p.2.2 qterms
    if 0 < s then some (Result1.mk p.1 p.2.1.sourceId s p.2.1.text) else none
  (results.mergeSort fun a a2 => decide (a2.score ≤ a.score)).take k

/-- Variant 1's `buildIndex(chunks)`.  In the source the `df` map is filled
inside the pass that builds the per-document `tf` maps (once per element of
`new Set(tokens)`); the two independent accumulations are written as two
passes over the same tokenized corpus here. -/
def buildIndex1 (chunks : List Chunk) : Model1 :=
  let docs := chunks.enum.map fun p => Doc1.mk p.1 p.2.sourceId p.2.text
  let corpus := docs.map fun d => tokenize1 d.text
  let df := corpus.foldl (fun m toks => (dedupFirst toks).foldl bumpAL m) []
  let tf := corpus.map freqOf
  let N := docs.length
  let avgdl : ℚ := ((corpus.map List.length).sum : ℚ) / ((Nat.max 1 N : ℕ) : ℚ)
  Model1.mk docs df tf N avgdl

/-- The IDF value used by both variants' `searchTop`:
`Math.log((N - n_t + 0.5)/(n_t + 0.5) + 1)` with the real logarithm. -/
noncomputable def idfReal (N nt : ℕ) : ℝ := Real.log ((idfArg N nt : ℚ) : ℝ)

/-! ### Association-list (JS object) lemmas -/

theorem tfGet_bumpAL (m : TFMap) (s t : String) :
    tfGet (bumpAL m t) s = tfGet m s + if s = t then 1 else 0 := by
  induction m with
  | nil =>
    by_cases h : s = t
    · subst h; simp [bumpAL, tfGet]
    · have h2 : ¬ t = s := fun h2 => h h2.symm
      simp [bumpAL, tfGet, h, h2]
  | cons p m ih =>
    obtain ⟨u, n⟩ := p
    by_cases hu : u = t
    · subst hu
      by_cases hs : u = s
      · subst hs; simp [bumpAL, tfGet]
      · have hs2 : ¬ s = u := fun h2 => hs h2.symm
        simp [bumpAL, tfGet, hs, hs2]
    · by_cases hs : u = s
      · subst hs
        simp [bumpAL, tfGet, hu]
      · simp [bumpAL, tfGet, hu, hs, ih]

theorem keys_bumpAL (m : TFMap) (t : String) :
    (bumpAL m t).map Prod.fst =
      if t ∈ m.map Prod.fst then m.map Prod.fst else m.map Prod.fst ++ [t] := by
  induction m with
  | nil => simp [bumpAL]
  | cons p m ih =>
    obtain ⟨u, n⟩ := p
    by_cases hu : u = t
    · subst hu; simp [bumpAL]
    · have : ¬ t = u := fun h => hu h.symm
      simp only [bumpAL, if_neg hu, List.map_cons, List.mem_cons, this, false_or, ih]
      by_cases hm : t ∈ m.map Prod.fst <;> simp [hm]

theorem valsum_bumpAL (m : TFMap) (t : String) :
    ((bumpAL m t).map Prod.snd).sum = (m.map Prod.snd).sum + 1 := by
  induction m with
  | nil => simp [bumpAL]
  | cons p m ih =>
    obtain ⟨u, n⟩ := p
    by_cases hu : u = t <;> simp [bumpAL, hu, ih] <;> omega

theorem tfGet_foldl_bumpAL (ts : List String) (m : TFMap) (t : String) :
    tfGet (ts.foldl bumpAL m) t = tfGet m t + ts.count t := by
  induction ts generalizing m with
  | nil => simp
  | cons s ts ih =>
    have hc : ts.count t + (if t = s then 1 else 0) = (s :: ts).count t := by
      rcases eq_or_ne t s with h | h
      · subst h; simp [List.count_cons]
      · simp [List.count_cons, h]
    simp only [List.foldl_cons, ih, tfGet_bumpAL, ← hc]
    ring

theorem mem_keys_foldl_bumpAL (ts : List String) (m : TFMap) (t : String) :
    t ∈ (ts.foldl bumpAL m).map Prod.fst ↔ t ∈ m.map Prod.fst ∨ t ∈ ts := by
  induction ts generalizing m with
  | nil => simp
  | cons s ts ih =>
    simp only [List.foldl_cons, ih, keys_bumpAL]
    by_cases hm : s ∈ m.map Prod.fst
    · simp only [if_pos hm, List.mem_cons]
      constructor
      · rintro (h | h) <;> tauto
      · rintro (h | rfl | h) <;> tauto
    · simp only [if_neg hm, List.mem_append, List.mem_singleton, List.mem_cons]
      tauto

theorem nodup_keys_foldl_bumpAL (ts : List String) (m : TFMap)
    (hm : (m.map Prod.fst).Nodup) : ((ts.foldl bumpAL m).map Prod.fst).Nodup := by
  induction ts generalizing m with
  | nil => simpa
  | cons s ts ih =>
    simp only [List.foldl_cons]
    apply ih
    rw [keys_bumpAL]
    by_cases h : s ∈ m.map Prod.fst
    · simpa [h]
    · simp [h, List.nodup_append, hm]

theorem valsum_foldl_bumpAL (ts : List String) (m : TFMap) :
    ((ts.foldl bumpAL m).map Prod.snd).sum = (m.map Prod.snd).sum + ts.length := by
  induction ts generalizing m with
  | nil => simp
  | cons s ts ih => simp [ih, valsum_bumpAL]; omega

theorem tfGet_freqOf (ts : List String) (t : String) :
    tfGet (freqOf ts) t = ts.count t := by
  simp [freqOf, tfGet_foldl_bumpAL, tfGet]

theorem mem_keys_freqOf (ts : List String) (t : String) :
    t ∈ (freqOf ts).map Prod.fst ↔ t ∈ ts := by
  rw [freqOf, mem_keys_foldl_bumpAL]
  simp

theorem nodup_keys_freqOf (ts : List String) :
    ((freqOf ts).map Prod.fst).Nodup := by
  apply nodup_keys_foldl_bumpAL; simp

theorem valsum_freqOf (ts : List String) :
    ((freqOf ts).map Prod.snd).sum = ts.length := by
  simp [freqOf, valsum_foldl_bumpAL]

/-! ### First-occurrence deduplication lemmas -/

theorem mem_foldl_dedupFirst (l acc : List String) (t : String) :
    t ∈ l.foldl (fun acc2 s => if s ∈ acc2 then acc2 else acc2 ++ [s]) acc ↔
      t ∈ acc ∨ t ∈ l := by
  induction l generalizing acc with
  | nil => simp
  | cons s l ih =>
    simp only [List.foldl_cons]
    by_cases h : s ∈ acc
    · rw [if_pos h, ih]
      simp only [List.mem_cons]
      constructor
      · rintro (h2 | h2)
        · exact Or.inl h2
        · exact Or.inr (Or.inr h2)
      · rintro (h2 | rfl | h2)
        · exact Or.inl h2
        · exact Or.inl h
        · exact Or.inr h2
    · rw [if_neg h, ih]
      simp only [List.mem_append, List.mem_singleton, List.mem_cons]
      tauto

theorem nodup_foldl_dedupFirst (l acc : List String) (hacc : acc.Nodup) :
    (l.foldl (fun acc2 s => if s ∈ acc2 then acc2 else acc2 ++ [s]) acc).Nodup := by
  induction l generalizing acc with
  | nil => simpa
  | cons s l ih =>
    simp only [List.foldl_cons]
    by_cases h : s ∈ acc
    · rw [if_pos h]; exact ih acc hacc
    · rw [if_neg h]
      exact ih _ (by simp [List.nodup_append, hacc, h])

theorem mem_dedupFirst (l : List String) (t : String) :
    t ∈ dedupFirst l ↔ t ∈ l := by
  simp [dedupFirst, mem_foldl_dedupFirst]

theorem nodup_dedupFirst (l : List String) : (dedupFirst l).Nodup :=
  nodup_foldl_dedupFirst l [] (by simp)

theorem toFinset_dedupFirst (l : List String) :
    (dedupFirst l).toFinset = l.toFinset := by
  ext t; simp [List.mem_toFinset, mem_dedupFirst]

/-! ### Score-accumulation lemmas -/

theorem insert_sdiff_seen {t : String} {A S : Finset String} (h : t ∉ S) :
    insert t A \ S = insert t (A \ insert t S) := by
  ext x
  simp only [Finset.mem_sdiff, Finset.mem_insert]
  constructor
  · rintro ⟨hx | hx, hxs⟩
    · exact Or.inl hx
    · by_cases hxt : x = t
      · exact Or.inl hxt
      · exact Or.inr ⟨hx, by tauto⟩
  · rintro (rfl | ⟨hx, hxs⟩)
    · exact ⟨Or.inl rfl, h⟩
    · exact ⟨Or.inr hx, fun h2 => hxs (Or.inr h2)⟩

theorem scoreFold_eq_sum (f : String → ℚ) (ts seen : List String) (acc : ℚ) :
    scoreFold f ts seen acc = acc + ∑ t ∈ ts.toFinset \ seen.toFinset, f t := by
  induction ts generalizing seen acc with
  | nil => simp [scoreFold]
  | cons t ts ih =>
    simp only [scoreFold, List.toFinset_cons]
    by_cases h : t ∈ seen
    · rw [if_pos h, ih]
      rw [Finset.insert_sdiff_of_mem _ (List.mem_toFinset.mpr h)]
    · rw [if_neg h, ih]
      have hns : t ∉ seen.toFinset := fun h2 => h (List.mem_toFinset.mp h2)
      rw [insert_sdiff_seen hns]
      rw [Finset.sum_insert (by simp)]
      simp only [List.toFinset_cons]
      ring

theorem bm25Score_eq_sum (log : ℚ → ℚ) (df : TFMap) (N : ℕ) (avgdl : ℚ)
    (doc : Doc) (qTokens : List String) :
    bm25Score log df N avgdl doc qTokens =
      ∑ t ∈ qTokens.toFinset, termScore log df N avgdl doc t := by
  rw [bm25Score, scoreFold_eq_sum]
  simp

theorem sum_map_eq_sum_toFinset (l : List String) (hl : l.Nodup) (f : String → ℚ) :
    (l.map f).sum = ∑ t ∈ l.toFinset, f t := by
  induction l with
  | nil => simp
  | cons s l ih =>
    have hs : s ∉ l := (List.nodup_cons.mp hl).1
    have hln : l.Nodup := (List.nodup_cons.mp hl).2
    simp only [List.map_cons, List.sum_cons, List.toFinset_cons]
    rw [Finset.sum_insert (by simpa using hs), ih hln]

theorem score1_eq_sum (log : ℚ → ℚ) (model : Model1) (tfDoc : TFMap)
    (q : String) :
    score1 log model tfDoc (dedupFirst (wsTokens q)) =
      ∑ t ∈ (wsTokens q).toFinset,
        termScore1 log model.df model.N model.avgdl tfDoc (docLen1 tfDoc) t := by
  rw [score1, sum_map_eq_sum_toFinset _ (nodup_dedupFirst _), toFinset_dedupFirst]

/-! ### Document-frequency lemmas -/

theorem tfGet_dfFold (kss : List (List String)) (m : TFMap) (t : String) :
    tfGet (kss.foldl (fun m2 ks => ks.foldl bumpAL m2) m) t
      = tfGet m t + (kss.map fun ks => ks.count t).sum := by
  induction kss generalizing m with
  | nil => simp
  | cons ks kss ih =>
    simp only [List.foldl_cons, List.map_cons, List.sum_cons, ih, tfGet_foldl_bumpAL]
    ring

theorem count_of_nodup (l : List String) (hl : l.Nodup) (t : String) :
    l.count t = if t ∈ l then 1 else 0 := by
  by_cases h : t ∈ l
  · rw [if_pos h]
    exact List.count_eq_one_of_mem hl h
  · rw [if_neg h]
    exact List.count_eq_zero.mpr h

theorem sum_ite_one_eq_countP {α : Type} (l : List α) (p : α → Prop)
    [DecidablePred p] :
    (l.map fun x => if p x then (1 : ℕ) else 0).sum = l.countP fun x => p x := by
  induction l with
  | nil => simp
  | cons x l ih =>
    simp only [List.map_cons, List.sum_cons, List.countP_cons, ih]
    by_cases h : p x
    · simp [h]
      omega
    · simp [h]

/-! ### Sorting helper lemmas -/

theorem res_trans (a a2 a3 : Result)
    (h1 : decide (a2.score ≤ a.score) = true)
    (h2 : decide (a3.score ≤ a2.score) = true) :
    decide (a3.score ≤ a.score) = true :=
  decide_eq_true (le_trans (of_decide_eq_true h2) (of_decide_eq_true h1))

theorem res_total (a a2 : Result) :
    (decide (a2.score ≤ a.score) || decide (a.score ≤ a2.score)) = true := by
  rcases le_total a2.score a.score with h | h <;> simp [h]

theorem res1_trans (a a2 a3 : Result1)
    (h1 : decide (a2.score ≤ a.score) = true)
    (h2 : decide (a3.score ≤ a2.score) = true) :
    decide (a3.score ≤ a.score) = true :=
  decide_eq_true (le_trans (of_decide_eq_true h2) (of_decide_eq_true h1))

theorem res1_total (a a2 : Result1) :
    (decide (a2.score ≤ a.score) || decide (a.score ≤ a2.score)) = true := by
  rcases le_total a2.score a.score with h | h <;> simp [h]

/-! ### Positivity lemmas -/

theorem buildIndex_avgdl_nonneg (chunks : List Chunk) :
    0 ≤ (buildIndex chunks).avgdl := by
  simp only [buildIndex]
  split
  · apply div_nonneg <;> positivity
  · exact le_refl 0

theorem buildIndex1_avgdl_nonneg (chunks : List Chunk) :
    0 ≤ (buildIndex1 chunks).avgdl := by
  simp only [buildIndex1]
  apply div_nonneg <;> positivity

theorem avgdlOr1_pos (a : ℚ) (h : 0 ≤ a) : 0 < avgdlOr1 a := by
  rw [avgdlOr1]
  split
  · norm_num
  · rename_i h2
    exact lt_of_le_of_ne h (fun h3 => h2 h3.symm)

theorem scoreDenom_pos (fqi len : ℕ) (avgdl : ℚ) (h : 0 ≤ avgdl) :
    0 < scoreDenom fqi len avgdl := by
  have h1 : 0 < avgdlOr1 avgdl := avgdlOr1_pos avgdl h
  have h2 : 0 ≤ (len : ℚ) / avgdlOr1 avgdl :=
    div_nonneg (by positivity) h1.le
  have h3 : 0 ≤ (fqi : ℚ) := by positivity
  rw [scoreDenom, k1, b]
  linarith

/-! ### Tokenizer character lemmas -/

theorem mem_of_mem_splitSep (p : Char → Bool) (l : List Char) :
    ∀ r ∈ splitSep p l, ∀ c ∈ r, c ∈ l ∧ p c = false := by
  induction l with
  | nil =>
    intro r hr c hc
    simp only [splitSep, List.mem_singleton] at hr
    subst hr
    simp at hc
  | cons c0 cs ih =>
    intro r hr c hc
    by_cases hp : p c0
    · rw [splitSep, if_pos hp] at hr
      rcases List.mem_cons.mp hr with rfl | hr2
      · simp at hc
      · have := ih r hr2 c hc
        exact ⟨List.mem_cons_of_mem _ this.1, this.2⟩
    · rw [splitSep, if_neg hp] at hr
      cases hspl : splitSep p cs with
      | nil =>
        rw [hspl] at hr
        simp only [List.mem_singleton] at hr
        subst hr
        rcases List.mem_singleton.mp hc with rfl
        exact ⟨List.mem_cons_self _ _, by simpa using hp⟩
      | cons r0 rs =>
        rw [hspl] at hr
        rcases List.mem_cons.mp hr with rfl | hr2
        · rcases List.mem_cons.mp hc with rfl | hc2
          · exact ⟨List.mem_cons_self _ _, by simpa using hp⟩
          · have := ih r0 (hspl ▸ List.mem_cons_self r0 rs) c hc2
            exact ⟨List.mem_cons_of_mem _ this.1, this.2⟩
        · have := ih r (hspl ▸ List.mem_cons_of_mem r0 hr2) c hc
          exact ⟨List.mem_cons_of_mem _ this.1, this.2⟩

theorem chars_of_keepSplit (keep : Char → Bool) (l : List Char) (tok : String)
    (h : tok ∈ ((splitSep isJsWhitespace (l.map fun c => if keep c then c else ' ')).filter
        fun r => r ≠ []).map fun r => String.mk r) :
    tok ≠ "" ∧ ∀ c ∈ tok.data, keep c = true := by
  obtain ⟨r, hr, rfl⟩ := List.mem_map.mp h
  have hrf := List.mem_filter.mp hr
  have hne : r ≠ [] := by simpa using hrf.2
  refine ⟨?_, ?_⟩
  · intro h2
    exact hne (congrArg String.data h2)
  · intro c hc
    have := mem_of_mem_splitSep isJsWhitespace _ r hrf.1 c hc
    obtain ⟨c0, _, hc0⟩ := List.mem_map.mp this.1
    by_cases hk : keep c0
    · rw [if_pos hk] at hc0
      rw [← hc0]
      exact hk
    · rw [if_neg hk] at hc0
      rw [← hc0] at this
      have : isJsWhitespace ' ' = true := by decide
      simp_all

/-! ### Projection lemmas for the two builders -/

theorem buildIndex_docs (chunks : List Chunk) :
    (buildIndex chunks).docs = chunks.map fun ch =>
      Doc.mk ch.id ch.sourceId ch.text (freqOf (tokenize ch.text))
        (tokenize ch.text).length := rfl

theorem buildIndex_df (chunks : List Chunk) :
    (buildIndex chunks).df =
      (chunks.map fun ch =>
        Doc.mk ch.id ch.sourceId ch.text (freqOf (tokenize ch.text))
          (tokenize ch.text).length).foldl
        (fun m doc => (doc.freq.map Prod.fst).foldl bumpAL m) [] := rfl

theorem buildIndex_avgdl (chunks : List Chunk) :
    (buildIndex chunks).avgdl =
      if 0 < (buildIndex chunks).docs.length
      then (((buildIndex chunks).docs.map Doc.len).sum : ℚ) /
        ((buildIndex chunks).docs.length : ℚ)
      else 0 := rfl

theorem buildIndex1_df (chunks : List Chunk) :
    (buildIndex1 chunks).df =
      ((chunks.enum.map fun p => Doc1.mk p.1 p.2.sourceId p.2.text).map
          fun d => tokenize1 d.text).foldl
        (fun m toks => (dedupFirst toks).foldl bumpAL m) [] := rfl

theorem buildIndex1_tf (chunks : List Chunk) :
    (buildIndex1 chunks).tf =
      ((chunks.enum.map fun p => Doc1.mk p.1 p.2.sourceId p.2.text).map
          fun d => tokenize1 d.text).map freqOf := rfl

theorem buildIndex1_avgdl (chunks : List Chunk) :
    (buildIndex1 chunks).avgdl =
      ((((chunks.enum.map fun p => Doc1.mk p.1 p.2.sourceId p.2.text).map
          fun d => tokenize1 d.text).map List.length).sum : ℚ) /
        ((Nat.max 1 (chunks.enum.map fun p => Doc1.mk p.1 p.2.sourceId p.2.text).length : ℕ) : ℚ) := rfl

theorem enum_map_snd_comp {α β : Type} (l : List α) (f : α → β) :
    l.enum.map (fun p => f p.2) = l.map f := by
  have h : (fun p : ℕ × α => f p.2) = f ∘ Prod.snd := rfl
  rw [h, ← List.map_map, List.enum_map_snd]

theorem corpus1_eq (chunks : List Chunk) :
    ((chunks.enum.map fun p => Doc1.mk p.1 p.2.sourceId p.2.text).map
        fun d => tokenize1 d.text) = chunks.map fun c => tokenize1 c.text := by
  rw [List.map_map]
  exact enum_map_snd_comp chunks fun c => tokenize1 c.text

theorem tfGet_docsFold (docs : List Doc) (m : TFMap) (t : String) :
    tfGet (docs.foldl (fun m2 doc => (doc.freq.map Prod.fst).foldl bumpAL m2) m) t
      = tfGet m t + (docs.map fun d => (d.freq.map Prod.fst).count t).sum := by
  induction docs generalizing m with
  | nil => simp
  | cons d docs ih =>
    simp only [List.foldl_cons, List.map_cons, List.sum_cons, ih, tfGet_foldl_bumpAL]
    ring

theorem tfGet_corpusFold (corpus : List (List String)) (m : TFMap) (t : String) :
    tfGet (corpus.foldl (fun m2 toks => (dedupFirst toks).foldl bumpAL m2) m) t
      = tfGet m t + (corpus.map fun toks => (dedupFirst toks).count t).sum := by
  induction corpus generalizing m with
  | nil => simp
  | cons toks corpus ih =>
    simp only [List.foldl_cons, List.map_cons, List.sum_cons, ih, tfGet_foldl_bumpAL]
    ring

theorem take_length_le {α : Type} (l : List α) (k : ℕ) : (l.take k).length ≤ k := by
  simp only [List.length_take]
  omega

theorem pairwise_mergeSort_take_res (l : List Result) (k : ℕ) :
    ((l.mergeSort fun a a2 => decide (a2.score ≤ a.score)).take k).Pairwise
      (fun a a2 => a2.score ≤ a.score) := by
  have h := List.sorted_mergeSort res_trans res_total l
  exact (h.imp fun h2 => of_decide_eq_true h2).take

theorem pairwise_mergeSort_take_res1 (l : List Result1) (k : ℕ) :
    ((l.mergeSort fun a a2 => decide (a2.score ≤ a.score)).take k).Pairwise
      (fun a a2 => a2.score ≤ a.score) := by
  have h := List.sorted_mergeSort res1_trans res1_total l
  exact (h.imp fun h2 => of_decide_eq_true h2).take

/-! ### Claim theorems -/

/-- C2: for every scoring function, every index model of either variant,
every query string and every `k ≥ 0`, `searchTop` returns a sequence of
length at most `k`, sorted by non-increasing score. -/
theorem C2_searchTop_len_le_sorted :
    ∀ (log : ℚ → ℚ) (model : Model) (model1 : Model1) (query : String) (k : ℕ),
      (searchTop log model query k).length ≤ k ∧
      (searchTop log model query k).Pairwise (fun a a2 => a2.score ≤ a.score) ∧
      (searchTop1 log model1 query k).length ≤ k ∧
      (searchTop1 log model1 query k).Pairwise (fun a a2 => a2.score ≤ a.score) := by
  intro log model model1 query k
  refine ⟨?_, ?_, ?_, ?_⟩
  · rw [searchTop]
    split
    · simp
    · exact take_length_le _ k
  · rw [searchTop]
    split
    · simp
    · exact pairwise_mergeSort_take_res _ k
  · exact take_length_le _ k
  · exact pairwise_mergeSort_take_res1 _ k

/-- C3: in both variants the document-frequency map built by `buildIndex`
assigns to every term the number of documents whose tokenized text contains
it at least once, each document counted once however often the term occurs
inside it. -/
theorem C3_documentFrequency :
    ∀ (chunks : List Chunk) (t : String),
      tfGet (buildIndex chunks).df t = chunks.countP (fun c => t ∈ tokenize c.text) ∧
      tfGet (buildIndex1 chunks).df t = chunks.countP (fun c => t ∈ tokenize1 c.text) := by
  intro chunks t
  constructor
  · rw [buildIndex_df, tfGet_docsFold]
    simp only [tfGet, zero_add, List.map_map, Function.comp]
    rw [← sum_ite_one_eq_countP chunks (fun c => t ∈ tokenize c.text)]
    congr 1
    apply List.map_congr_left
    intro ch _
    show ((freqOf (tokenize ch.text)).map Prod.fst).count t = _
    rw [count_of_nodup _ (nodup_keys_freqOf _)]
    by_cases h : t ∈ tokenize ch.text
    · rw [if_pos ((mem_keys_freqOf _ t).mpr h), if_pos h]
    · rw [if_neg (fun h2 => h ((mem_keys_freqOf _ t).mp h2)), if_neg h]
  · rw [buildIndex1_df, corpus1_eq, tfGet_corpusFold]
    simp only [tfGet, zero_add, List.map_map, Function.comp]
    rw [← sum_ite_one_eq_countP chunks (fun c => t ∈ tokenize1 c.text)]
    congr 1
    apply List.map_congr_left
    intro ch _
    show (dedupFirst (tokenize1 ch.text)).count t = _
    rw [count_of_nodup _ (nodup_dedupFirst _)]
    by_cases h : t ∈ tokenize1 ch.text
    · rw [if_pos ((mem_dedupFirst _ t).mpr h), if_pos h]
    · rw [if_neg (fun h2 => h ((mem_dedupFirst _ t).mp h2)), if_neg h]

/-- The arithmetic mean of per-document token lengths, as the spec words it
(`avgdl` equals the mean of all document token-lengths, 0 when the corpus is
empty); used to compare the two builders against the spec. -/
def specAvgdl (tok : String → List String) (chunks : List Chunk) : ℚ :=
  if chunks.length = 0 then 0
  else ((chunks.map fun c => (((tok c.text).length : ℕ) : ℚ)).sum) / (chunks.length : ℚ)

/-- C4: in both variants `avgdl` is the arithmetic mean of the token lengths
of all documents, and building from the empty list yields `N = 0`,
`avgdl = 0` and an empty document-frequency map. -/
theorem C4_avgdl_mean_and_empty :
    ∀ chunks : List Chunk,
      (buildIndex chunks).avgdl = specAvgdl tokenize chunks ∧
      (buildIndex1 chunks).avgdl = specAvgdl tokenize1 chunks ∧
      (buildIndex []).N = 0 ∧ (buildIndex []).avgdl = 0 ∧ (buildIndex []).df = [] ∧
      (buildIndex1 []).N = 0 ∧ (buildIndex1 []).avgdl = 0 ∧ (buildIndex1 []).df = [] := by
  intro chunks
  refine ⟨?_, ?_, rfl, rfl, rfl, rfl, by rw [buildIndex1_avgdl]; simp, rfl⟩
  · rw [buildIndex_avgdl, buildIndex_docs, specAvgdl]
    simp only [List.length_map, List.map_map, Function.comp]
    rcases Nat.eq_zero_or_pos chunks.length with h | h
    · rw [if_neg (by omega), if_pos h]
    · rw [if_pos h, if_neg (by omega)]
      rw [Nat.cast_list_sum]
      rw [List.map_map]
      rfl
  · rw [buildIndex1_avgdl, corpus1_eq, specAvgdl]
    simp only [List.length_map, List.map_map, Function.comp, List.enum_length]
    rcases Nat.eq_zero_or_pos chunks.length with h | h
    · have hc : chunks = [] := List.length_eq_zero.mp h
      subst hc
      simp
    · rw [if_neg (by omega)]
      have hmax : Nat.max 1 chunks.length = chunks.length := Nat.max_eq_right h
      rw [hmax, Nat.cast_list_sum, List.map_map]
      rfl

/-- C8: the scoring denominator substitutes 1 for `avgdl` when `avgdl` is 0,
and on any model produced by either builder the full term-frequency-weight
denominator is strictly positive for every term frequency and document
length, so the (total) scoring function never divides by zero. -/
theorem C8_avgdl_guard :
    avgdlOr1 0 = 1 ∧
    ∀ (chunks : List Chunk) (fqi len : ℕ),
      0 < scoreDenom fqi len (buildIndex chunks).avgdl ∧
      0 < scoreDenom fqi len (buildIndex1 chunks).avgdl := by
  constructor
  · rw [avgdlOr1, if_pos rfl]
  · intro chunks fqi len
    exact ⟨scoreDenom_pos fqi len _ (buildIndex_avgdl_nonneg chunks),
      scoreDenom_pos fqi len _ (buildIndex1_avgdl_nonneg chunks)⟩

/-- C9: for every corpus size `N` and document frequency `n_t` with
`0 < n_t ≤ N`, the argument of the logarithm in the IDF used by `searchTop`
is at least 1, hence the IDF `ln((N - n_t + 0.5)/(n_t + 0.5) + 1)` is
non-negative: no query term contributes a negative amount to a score. -/
theorem C9_idf_nonneg :
    ∀ N nt : ℕ, 0 < nt → nt ≤ N → 1 ≤ idfArg N nt ∧ 0 ≤ idfReal N nt := by
  intro N nt h1 h2
  have harg : 1 ≤ idfArg N nt := by
    rw [idfArg]
    have hle : ((nt : ℚ)) ≤ (N : ℚ) := by exact_mod_cast h2
    have hnum : (0 : ℚ) ≤ (N : ℚ) - (nt : ℚ) + 1 / 2 := by linarith
    have hden : (0 : ℚ) < (nt : ℚ) + 1 / 2 := by positivity
    have := div_nonneg hnum hden.le
    linarith
  refine ⟨harg, ?_⟩
  rw [idfReal]
  apply Real.log_nonneg
  exact_mod_cast harg

/-- Witness for C9 at `N = 2`, `n_t = 1`. -/
theorem C9_idf_nonneg_witness :
    0 < 1 ∧ 1 ≤ 2 ∧ 1 ≤ idfArg 2 1 ∧ 0 ≤ idfReal 2 1 :=
  ⟨Nat.one_pos, by norm_num, (C9_idf_nonneg 2 1 Nat.one_pos (by norm_num)).1,
    (C9_idf_nonneg 2 1 Nat.one_pos (by norm_num)).2⟩

/-- C10: for every corpus, every indexed document's stored length (variant 0)
equals the sum of the counts in its term-frequency map, which equals the
number of tokens of its tokenized text; and in variant 1 the document length
recomputed by `searchTop` as the sum of the stored term-frequency values
(`docLen1`) equals the same token count. -/
theorem C10_doc_length_consistent :
    ∀ chunks : List Chunk,
      ((buildIndex chunks).docs.map fun d => (d.freq.map Prod.snd).sum)
          = chunks.map (fun c => (tokenize c.text).length) ∧
      ((buildIndex chunks).docs.map Doc.len)
          = chunks.map (fun c => (tokenize c.text).length) ∧
      ((buildIndex1 chunks).tf.map docLen1)
          = chunks.map (fun c => (tokenize1 c.text).length) := by
  intro chunks
  refine ⟨?_, ?_, ?_⟩
  · rw [buildIndex_docs, List.map_map]
    apply List.map_congr_left
    intro ch _
    exact valsum_freqOf (tokenize ch.text)
  · rw [buildIndex_docs, List.map_map]
    rfl
  · rw [buildIndex1_tf, corpus1_eq, List.map_map, List.map_map]
    apply List.map_congr_left
    intro ch _
    exact valsum_freqOf (tokenize1 ch.text)

/-! ### Per-term zero lemmas and congruence helpers -/

theorem termScore_df_zero (log : ℚ → ℚ) (df : TFMap) (N : ℕ) (avgdl : ℚ)
    (doc : Doc) (t : String) (h : tfGet df t = 0) :
    termScore log df N avgdl doc t = 0 := by
  rw [termScore]
  simp [h]

theorem termScore1_df_zero (log : ℚ → ℚ) (df : TFMap) (N : ℕ) (avgdl : ℚ)
    (tfDoc : TFMap) (dl : ℕ) (t : String) (h : tfGet df t = 0) :
    termScore1 log df N avgdl tfDoc dl t = 0 := by
  rw [termScore1]
  simp [h]

theorem searchTop_score_congr (log : ℚ → ℚ) (model : Model) (q1 q2 : String)
    (k : ℕ)
    (h : ∀ doc : Doc, bm25Score log model.df model.N model.avgdl doc (tokenize q1)
        = bm25Score log model.df model.N model.avgdl doc (tokenize q2)) :
    searchTop log model q1 k = searchTop log model q2 k := by
  rw [searchTop, searchTop]
  by_cases hc : model.docs.isEmpty
  · rw [if_pos hc, if_pos hc]
  · rw [if_neg hc, if_neg hc]
    have he : (fun doc : Doc => Result.mk doc.sourceId doc.text
        (bm25Score log model.df model.N model.avgdl doc (tokenize q1)))
        = fun doc : Doc => Result.mk doc.sourceId doc.text
          (bm25Score log model.df model.N model.avgdl doc (tokenize q2)) :=
      funext fun doc => by rw [h doc]
    simp only [he]

theorem searchTop1_score_congr (log : ℚ → ℚ) (model1 : Model1) (r1 r2 : String)
    (k : ℕ)
    (h : ∀ tfDoc : TFMap, score1 log model1 tfDoc (dedupFirst (wsTokens r1))
        = score1 log model1 tfDoc (dedupFirst (wsTokens r2))) :
    searchTop1 log model1 r1 k = searchTop1 log model1 r2 k := by
  rw [searchTop1, searchTop1]
  have he : (fun p : ℕ × Doc1 × TFMap =>
      if 0 < score1 log model1 p.2.2 (dedupFirst (wsTokens r1))
      then some (Result1.mk p.1 p.2.1.sourceId
        (score1 log model1 p.2.2 (dedupFirst (wsTokens r1))) p.2.1.text)
      else none)
      = fun p : ℕ × Doc1 × TFMap =>
      if 0 < score1 log model1 p.2.2 (dedupFirst (wsTokens r2))
      then some (Result1.mk p.1 p.2.1.sourceId
        (score1 log model1 p.2.2 (dedupFirst (wsTokens r2))) p.2.1.text)
      else none :=
    funext fun p => by rw [h p.2.2]
  simp only [he]

/-- C1 (amended): if every term of the query has document frequency 0 in the
model, then variant 0's `searchTop` returns all the model's documents with
score 0, in original corpus order, truncated to the first `k`; variant 1's
`searchTop` instead filters out zero-score documents and returns the empty
list. -/
theorem C1_zero_df_all_docs (log : ℚ → ℚ) (model : Model) (model1 : Model1)
    (q : String) (k : ℕ)
    (h0 : ∀ t ∈ tokenize q, tfGet model.df t = 0)
    (h1 : ∀ t ∈ wsTokens q, tfGet model1.df t = 0) :
    searchTop log model q k
      = (model.docs.map fun d => Result.mk d.sourceId d.text 0).take k ∧
    searchTop1 log model1 q k = [] := by
  constructor
  · rw [searchTop]
    by_cases hc : model.docs.isEmpty
    · rw [if_pos hc]
      rw [show model.docs = [] from List.isEmpty_iff.mp hc]
      simp
    · rw [if_neg hc]
      have he : (fun doc : Doc => Result.mk doc.sourceId doc.text
          (bm25Score log model.df model.N model.avgdl doc (tokenize q)))
          = fun d : Doc => Result.mk d.sourceId d.text 0 := by
        funext doc
        have hz : ∑ t ∈ (tokenize q).toFinset,
            termScore log model.df model.N model.avgdl doc t = 0 :=
          Finset.sum_eq_zero fun t ht =>
            termScore_df_zero log model.df model.N model.avgdl doc t
              (h0 t (List.mem_toFinset.mp ht))
        rw [bm25Score_eq_sum, hz]
      simp only [he]
      have hp : (model.docs.map fun d : Doc => Result.mk d.sourceId d.text 0).Pairwise
          (fun a a2 => decide (a2.score ≤ a.score) = true) := by
        apply List.pairwise_of_forall_mem_list
        intro a ha a2 ha2
        obtain ⟨d, _, rfl⟩ := List.mem_map.mp ha
        obtain ⟨d2, _, rfl⟩ := List.mem_map.mp ha2
        exact decide_eq_true (le_refl 0)
      rw [List.mergeSort_of_sorted hp]
  · rw [searchTop1]
    have hres : (((model1.docs.zip model1.tf).enum).filterMap fun p =>
        if 0 < score1 log model1 p.2.2 (dedupFirst (wsTokens q))
        then some (Result1.mk p.1 p.2.1.sourceId
          (score1 log model1 p.2.2 (dedupFirst (wsTokens q))) p.2.1.text)
        else none) = [] := by
      rw [List.filterMap_eq_nil_iff]
      intro p hp
      have hs : score1 log model1 p.2.2 (dedupFirst (wsTokens q)) = 0 := by
        rw [score1_eq_sum]
        exact Finset.sum_eq_zero fun t ht =>
          termScore1_df_zero log model1.df model1.N model1.avgdl p.2.2
            (docLen1 p.2.2) t (h1 t (List.mem_toFinset.mp ht))
      rw [hs]
      norm_num
    simp only [hres, List.mergeSort_nil, List.take_nil]

/-- Witness for C1 (amended) on a one-document corpus and the absent query
term `"b"`. -/
theorem C1_zero_df_all_docs_witness :
    (∀ t ∈ tokenize "b", tfGet (buildIndex [Chunk.mk "1" "A" "a"]).df t = 0) ∧
    (∀ t ∈ wsTokens "b", tfGet (buildIndex1 [Chunk.mk "1" "A" "a"]).df t = 0) ∧
    searchTop (fun _ => 0) (buildIndex [Chunk.mk "1" "A" "a"]) "b" 5
      = ((buildIndex [Chunk.mk "1" "A" "a"]).docs.map fun d =>
          Result.mk d.sourceId d.text 0).take 5 ∧
    searchTop1 (fun _ => 0) (buildIndex1 [Chunk.mk "1" "A" "a"]) "b" 5 = [] := by
  have h0 : ∀ t ∈ tokenize "b", tfGet (buildIndex [Chunk.mk "1" "A" "a"]).df t = 0 := by
    intro t ht
    have e : tokenize "b" = ["b"] := rfl
    rw [e, List.mem_singleton] at ht
    subst ht
    rfl
  have h1 : ∀ t ∈ wsTokens "b", tfGet (buildIndex1 [Chunk.mk "1" "A" "a"]).df t = 0 := by
    intro t ht
    have e : wsTokens "b" = ["b"] := rfl
    rw [e, List.mem_singleton] at ht
    subst ht
    rfl
  have hc := C1_zero_df_all_docs (fun _ => 0) (buildIndex [Chunk.mk "1" "A" "a"])
    (buildIndex1 [Chunk.mk "1" "A" "a"]) "b" 5 h0 h1
  exact ⟨h0, h1, hc.1, hc.2⟩

/-- Counterexample to C1 as stated: on variant 1, a query whose only term is
absent from the corpus yields the empty list, not the corpus documents with
score 0 — zero-score documents are dropped by the `score > 0` filter. -/
theorem C1_zero_df_all_docs_cex :
    searchTop1 (fun _ => 0) (buildIndex1 [Chunk.mk "1" "A" "a"]) "b" 5
      ≠ ((buildIndex1 [Chunk.mk "1" "A" "a"]).docs.map fun d =>
          Result1.mk d.id d.sourceId 0 d.text).take 5 := by
  have hL : searchTop1 (fun _ => 0) (buildIndex1 [Chunk.mk "1" "A" "a"]) "b" 5 = [] := by
    rw [searchTop1]
    have hq : dedupFirst (wsTokens "b") = ["b"] := rfl
    rw [hq]
    have hd : (((buildIndex1 [Chunk.mk "1" "A" "a"]).docs.zip
        (buildIndex1 [Chunk.mk "1" "A" "a"]).tf).enum)
        = [(0, Doc1.mk 0 "A" "a", [("a", 1)])] := rfl
    rw [hd]
    have hs : score1 (fun _ => 0) (buildIndex1 [Chunk.mk "1" "A" "a"]) [("a", 1)] ["b"] = 0 := by
      rw [score1]
      simp only [List.map_cons, List.map_nil, List.sum_cons, List.sum_nil, add_zero]
      have hni : tfGet (buildIndex1 [Chunk.mk "1" "A" "a"]).df "b" = 0 := rfl
      rw [termScore1, hni]
      simp
    simp [hs]
  have hR : (((buildIndex1 [Chunk.mk "1" "A" "a"]).docs.map fun d =>
      Result1.mk d.id d.sourceId 0 d.text).take 5) = [Result1.mk 0 "A" 0 "a"] := rfl
  rw [hL, hR]
  simp

/-- C5 (amended): variant 0's `searchTop` depends on the query only through
the set of distinct terms produced by the index tokenizer `tokenize`;
variant 1's `searchTop` instead lower-cases and splits the query on
whitespace runs only (`wsTokens`), and depends on the query only through
that set of distinct whitespace-separated terms. -/
theorem C5_searchTop_dedup (log : ℚ → ℚ) (model : Model) (model1 : Model1)
    (q1 q2 r1 r2 : String) (k : ℕ)
    (h0 : (tokenize q1).toFinset = (tokenize q2).toFinset)
    (h1 : (wsTokens r1).toFinset = (wsTokens r2).toFinset) :
    searchTop log model q1 k = searchTop log model q2 k ∧
    searchTop1 log model1 r1 k = searchTop1 log model1 r2 k := by
  constructor
  · apply searchTop_score_congr
    intro doc
    rw [bm25Score_eq_sum, bm25Score_eq_sum, h0]
  · apply searchTop1_score_congr
    intro tfDoc
    rw [score1_eq_sum, score1_eq_sum, h1]

/-- Witness for C5 (amended): a repeated query term contributes once in both
variants. -/
theorem C5_searchTop_dedup_witness :
    (tokenize "a a").toFinset = (tokenize "a").toFinset ∧
    (wsTokens "a a").toFinset = (wsTokens "a").toFinset ∧
    searchTop (fun _ => 0) (buildIndex [Chunk.mk "1" "A" "a"]) "a a" 5
      = searchTop (fun _ => 0) (buildIndex [Chunk.mk "1" "A" "a"]) "a" 5 ∧
    searchTop1 (fun _ => 0) (buildIndex1 [Chunk.mk "1" "A" "a"]) "a a" 5
      = searchTop1 (fun _ => 0) (buildIndex1 [Chunk.mk "1" "A" "a"]) "a" 5 := by
  have h0 : (tokenize "a a").toFinset = (tokenize "a").toFinset := by
    have e1 : tokenize "a a" = ["a", "a"] := rfl
    have e2 : tokenize "a" = ["a"] := rfl
    rw [e1, e2]
    simp
  have h1 : (wsTokens "a a").toFinset = (wsTokens "a").toFinset := by
    have e1 : wsTokens "a a" = ["a", "a"] := rfl
    have e2 : wsTokens "a" = ["a"] := rfl
    rw [e1, e2]
    simp
  have hc := C5_searchTop_dedup (fun _ => 0) (buildIndex [Chunk.mk "1" "A" "a"])
    (buildIndex1 [Chunk.mk "1" "A" "a"]) "a a" "a" "a a" "a" 5 h0 h1
  exact ⟨h0, h1, hc.1, hc.2⟩

/-- Counterexample to C5 as stated: the queries `"aspirin."` and `"aspirin"`
have the same distinct terms under variant 1's own index tokenizer
(`tokenize1` strips the dot), yet variant 1's `searchTop` answers them
differently, because it extracts query terms by whitespace-splitting only
and `"aspirin."` then matches nothing. -/
theorem C5_searchTop_dedup_cex :
    (tokenize1 "aspirin.").toFinset = (tokenize1 "aspirin").toFinset ∧
    searchTop1 (fun _ => 1) (buildIndex1 [Chunk.mk "1" "A" "aspirin"]) "aspirin." 5
      ≠ searchTop1 (fun _ => 1) (buildIndex1 [Chunk.mk "1" "A" "aspirin"]) "aspirin" 5 := by
  constructor
  · rfl
  · have hL : searchTop1 (fun _ => 1) (buildIndex1 [Chunk.mk "1" "A" "aspirin"])
        "aspirin." 5 = [] := by
      rw [searchTop1]
      have hq : dedupFirst (wsTokens "aspirin.") = ["aspirin."] := rfl
      rw [hq]
      have hd : (((buildIndex1 [Chunk.mk "1" "A" "aspirin"]).docs.zip
          (buildIndex1 [Chunk.mk "1" "A" "aspirin"]).tf).enum)
          = [(0, Doc1.mk 0 "A" "aspirin", [("aspirin", 1)])] := rfl
      rw [hd]
      have hs : score1 (fun _ => 1) (buildIndex1 [Chunk.mk "1" "A" "aspirin"])
          [("aspirin", 1)] ["aspirin."] = 0 := by
        rw [score1]
        simp only [List.map_cons, List.map_nil, List.sum_cons, List.sum_nil, add_zero]
        have hni : tfGet (buildIndex1 [Chunk.mk "1" "A" "aspirin"]).df "aspirin." = 0 := rfl
        rw [termScore1, hni]
        simp
      simp [hs]
    have hR : searchTop1 (fun _ => 1) (buildIndex1 [Chunk.mk "1" "A" "aspirin"])
        "aspirin" 5 = [Result1.mk 0 "A" 1 "aspirin"] := by
      rw [searchTop1]
      have hq : dedupFirst (wsTokens "aspirin") = ["aspirin"] := rfl
      rw [hq]
      have hd : (((buildIndex1 [Chunk.mk "1" "A" "aspirin"]).docs.zip
          (buildIndex1 [Chunk.mk "1" "A" "aspirin"]).tf).enum)
          = [(0, Doc1.mk 0 "A" "aspirin", [("aspirin", 1)])] := rfl
      rw [hd]
      have hs : score1 (fun _ => 1) (buildIndex1 [Chunk.mk "1" "A" "aspirin"])
          [("aspirin", 1)] ["aspirin"] = 1 := by
        rw [score1]
        simp only [List.map_cons, List.map_nil, List.sum_cons, List.sum_nil, add_zero]
        have hni : tfGet (buildIndex1 [Chunk.mk "1" "A" "aspirin"]).df "aspirin" = 1 := rfl
        have hfii : tfGet [("aspirin", 1)] "aspirin" = 1 := rfl
        have hdl : docLen1 [("aspirin", 1)] = 1 := rfl
        have havg : (buildIndex1 [Chunk.mk "1" "A" "aspirin"]).avgdl
            = ((1 : ℕ) : ℚ) / ((1 : ℕ) : ℚ) := rfl
        rw [termScore1, hni, hfii, hdl, havg]
        norm_num [scoreDenom, avgdlOr1, k1, b]
      simp only [List.filterMap_cons, List.filterMap_nil, hs]
      norm_num
    rw [hL, hR]
    simp

/-- C6 (amended): every token returned by variant 0's `tokenize` is
non-empty and consists only of ASCII letters, ASCII digits, or CJK Unified
Ideographs (`isKeep`); every token returned by variant 1's `tokenize` is
non-empty and consists only of those characters or U+00C0–U+024F accented
Latin characters (`isKeep1`). -/
theorem C6_tokenize_charclass :
    (∀ (s : String), ∀ tok ∈ tokenize s, tok ≠ "" ∧ ∀ c ∈ tok.data, isKeep c = true) ∧
    (∀ (s : String), ∀ tok ∈ tokenize1 s, tok ≠ "" ∧ ∀ c ∈ tok.data, isKeep1 c = true) :=
  ⟨fun s tok h => chars_of_keepSplit isKeep (s.data.map jsToLower) tok h,
    fun s tok h => chars_of_keepSplit isKeep1 (s.data.map jsToLower) tok h⟩

/-- Witness for C6 (amended) at the inputs `"a.b"` (variant 0) and `"é"`
(variant 1). -/
theorem C6_tokenize_charclass_witness :
    "a" ∈ tokenize "a.b" ∧ ("a" ≠ "" ∧ ∀ c ∈ "a".data, isKeep c = true) ∧
    "é" ∈ tokenize1 "é" ∧ ("é" ≠ "" ∧ ∀ c ∈ "é".data, isKeep1 c = true) := by
  have hm : "a" ∈ tokenize "a.b" := by
    have e : tokenize "a.b" = ["a", "b"] := rfl
    rw [e]
    simp
  have hm1 : "é" ∈ tokenize1 "é" := by
    have e : tokenize1 "é" = ["é"] := rfl
    rw [e]
    simp
  exact ⟨hm, C6_tokenize_charclass.1 "a.b" "a" hm, hm1,
    C6_tokenize_charclass.2 "é" "é" hm1⟩

/-- Counterexample to C6 as stated: variant 1's tokenizer returns the token
`"é"`, whose character U+00E9 is not an ASCII letter, an ASCII digit, or a
CJK Unified Ideograph (`isKeep` is exactly that three-class predicate), so
not every token of the program's tokenizers stays within the three classes. -/
theorem C6_tokenize_charclass_cex :
    tokenize1 "é" = ["é"] ∧ 'é' ∈ ("é" : String).data ∧ isKeep 'é' = false := by
  refine ⟨rfl, ?_, rfl⟩
  show 'é' ∈ ['é']
  simp

/-- C7: in both variants, a query term with document frequency 0 in the
model contributes nothing: dropping every occurrence of such a term from the
query (at the level of each variant's own query-term extraction) leaves the
result of `searchTop` unchanged. -/
theorem C7_absent_term_removal (log : ℚ → ℚ) (model : Model) (model1 : Model1)
    (q1 q2 r1 r2 : String) (k : ℕ) (t : String)
    (h0 : tfGet model.df t = 0)
    (h1 : tfGet model1.df t = 0)
    (e0 : tokenize q2 = (tokenize q1).filter (fun s => s ≠ t))
    (e1 : wsTokens r2 = (wsTokens r1).filter (fun s => s ≠ t)) :
    searchTop log model q1 k = searchTop log model q2 k ∧
    searchTop1 log model1 r1 k = searchTop1 log model1 r2 k := by
  constructor
  · apply searchTop_score_congr
    intro doc
    rw [bm25Score_eq_sum, bm25Score_eq_sum, e0, List.toFinset_filter]
    symm
    apply Finset.sum_filter_of_ne
    intro x hx hne
    simp only [decide_eq_true_eq]
    intro hxt
    subst hxt
    exact hne (termScore_df_zero log model.df model.N model.avgdl doc x h0)
  · apply searchTop1_score_congr
    intro tfDoc
    rw [score1_eq_sum, score1_eq_sum, e1, List.toFinset_filter]
    symm
    apply Finset.sum_filter_of_ne
    intro x hx hne
    simp only [decide_eq_true_eq]
    intro hxt
    subst hxt
    exact hne (termScore1_df_zero log model1.df model1.N model1.avgdl tfDoc
      (docLen1 tfDoc) x h1)

/-- Witness for C7 on a one-document corpus, removing the absent term `"b"`
from the query `"a b"`. -/
theorem C7_absent_term_removal_witness :
    tfGet (buildIndex [Chunk.mk "1" "A" "a"]).df "b" = 0 ∧
    tfGet (buildIndex1 [Chunk.mk "1" "A" "a"]).df "b" = 0 ∧
    tokenize "a" = (tokenize "a b").filter (fun s => s ≠ "b") ∧
    wsTokens "a" = (wsTokens "a b").filter (fun s => s ≠ "b") ∧
    searchTop (fun _ => 0) (buildIndex [Chunk.mk "1" "A" "a"]) "a b" 5
      = searchTop (fun _ => 0) (buildIndex [Chunk.mk "1" "A" "a"]) "a" 5 ∧
    searchTop1 (fun _ => 0) (buildIndex1 [Chunk.mk "1" "A" "a"]) "a b" 5
      = searchTop1 (fun _ => 0) (buildIndex1 [Chunk.mk "1" "A" "a"]) "a" 5 := by
  have h0 : tfGet (buildIndex [Chunk.mk "1" "A" "a"]).df "b" = 0 := rfl
  have h1 : tfGet (buildIndex1 [Chunk.mk "1" "A" "a"]).df "b" = 0 := rfl
  have e0 : tokenize "a" = (tokenize "a b").filter (fun s => s ≠ "b") := rfl
  have e1 : wsTokens "a" = (wsTokens "a b").filter (fun s => s ≠ "b") := rfl
  have hc := C7_absent_term_removal (fun _ => 0) (buildIndex [Chunk.mk "1" "A" "a"])
    (buildIndex1 [Chunk.mk "1" "A" "a"]) "a b" "a" "a b" "a" 5 "b" h0 h1 e0 e1
  exact ⟨h0, h1, e0, e1, hc.1, hc.2⟩
